import Mathlib

/-!
Shallow embedding of the OneNote RAG system (akshata29/onenote) for checking
its natural-language specification. The React frontend under `frontend/src`
is embedded directly from the TypeScript source; the backend core (Ingestion
Job Manager, Chunker, Embedding Client, Index Writer, Retrieval Orchestrator,
Answer Composer) is not part of the repository snapshot, so those components
are modelled from the specification's words, as marked on each definition.
-/

namespace OneNote

/-! ## JSON values and JavaScript truthiness

The HTTP helpers in `frontend/src/api.ts` use JavaScript's `||` operator on
response bodies and status fields; we model JSON values together with the
JavaScript notion of truthiness so that `a || b` can be embedded exactly. -/

/-- JSON values, as passed around by axios and the fetch-like wrappers. -/
inductive Json where
  | null : Json
  | bool (b : Bool) : Json
  | num (n : Int) : Json
  | str (s : String) : Json
  | obj (fields : List (String × Json)) : Json
  | arr (elems : List Json) : Json

/-- JavaScript truthiness of a JSON value: `null`, `false`, `0` and `""` are
falsy; every object and array (empty included) is truthy. -/
def Json.truthy : Json → Bool
  | .null => false
  | .bool b => b
  | .num n => n != 0
  | .str s => s != ""
  | .obj _ => true
  | .arr _ => true

/-- Embedding of the JavaScript expression `a || b` on JSON values. -/
def jsOr (a b : Json) : Json := if a.truthy then a else b

/-- Embedding of `a || b` on JavaScript numbers (used for `status || 0`). -/
def jsOrNum (a b : Int) : Int := if a != 0 then a else b

/-- Embedding of `a || b` on JavaScript strings (used for `statusText`). -/
def jsOrStr (a b : String) : String := if a != "" then a else b

/-! ## `frontend/src/api.ts`: authFetch / postAuth / deleteAuth

Each helper wraps an axios call in a try/catch and always returns a
fetch-like object, never throwing. The axios call itself is the external
collaborator; its outcome is passed in as a value of `AxiosResult`:
a resolved response carries `status`, `statusText` and `data`, a rejected
promise carries an error `message` and an optional `error.response`. -/

/-- Outcome of an axios request: success resolves with a response; failure
rejects with an error message and an optional attached response
(`error.response` with status, statusText and data). -/
inductive AxiosResult where
  | success (status : Int) (statusText : String) (data : Json) : AxiosResult
  | failure (message : String) (response : Option (Int × String × Json)) : AxiosResult

/-- Fetch-like object returned by the helpers in `api.ts`: `ok`, `status`,
`statusText`, and the value that `json()` resolves to. -/
structure FetchLike where
  ok : Bool
  status : Int
  statusText : String
  body : Json

/-- Embedding of `authFetch` from `frontend/src/api.ts`. The url and token
only parameterize the underlying axios GET; the returned object depends on
the axios outcome alone. On success it returns `ok: true` with the response
fields; on failure it returns `ok: false` where status is
`error.response?.status || 0`, statusText is
`error.response?.statusText || error.message` and `json()` resolves to
`error.response?.data || ` the empty object. When `error.response` is
absent the optional chains yield `undefined`, which is falsy, so the
right-hand operands are taken directly. -/
def authFetch (_url _token : String) : AxiosResult → FetchLike
  | .success st stx d => { ok := true, status := st, statusText := stx, body := d }
  | .failure msg none => { ok := false, status := 0, statusText := msg, body := .obj [] }
  | .failure msg (some (st, stx, d)) =>
      { ok := false, status := jsOrNum st 0, statusText := jsOrStr stx msg, body := jsOr d (.obj []) }

/-- Embedding of `postAuth` from `frontend/src/api.ts`; identical shape to
`authFetch` except the underlying call is a POST carrying a body. -/
def postAuth (_url : String) (_body : Json) (_token : String) : AxiosResult → FetchLike
  | .success st stx d => { ok := true, status := st, statusText := stx, body := d }
  | .failure msg none => { ok := false, status := 0, statusText := msg, body := .obj [] }
  | .failure msg (some (st, stx, d)) =>
      { ok := false, status := jsOrNum st 0, statusText := jsOrStr stx msg, body := jsOr d (.obj []) }

/-- Embedding of `deleteAuth` from `frontend/src/api.ts`; identical shape to
`authFetch` (the extra `text()` accessor on the error branch resolves to the
same `statusText` string and is not modelled separately). -/
def deleteAuth (_url _token : String) : AxiosResult → FetchLike
  | .success st stx d => { ok := true, status := st, statusText := stx, body := d }
  | .failure msg none => { ok := false, status := 0, statusText := msg, body := .obj [] }
  | .failure msg (some (st, stx, d)) =>
      { ok := false, status := jsOrNum st 0, statusText := jsOrStr stx msg, body := jsOr d (.obj []) }

/-- Shape property shared by the three helpers: success maps to `ok: true`
with the response status; failure maps to `ok: false` with the error
response's status when attached and `0` otherwise, and a body that is the
error body or the empty object. -/
def fetchLikeSpec (f : AxiosResult → FetchLike) : Prop :=
  ∀ r : AxiosResult,
    (match r with
     | .success st _ _ => (f r).ok = true ∧ (f r).status = st
     | .failure _ none => (f r).ok = false ∧ (f r).status = 0 ∧ (f r).body = .obj []
     | .failure _ (some (st, _, d)) =>
        (f r).ok = false ∧ (f r).status = st ∧ ((f r).body = d ∨ (f r).body = .obj []))

/-! ## `frontend/src/components/Sidebar.tsx`: scope selection

The sidebar keeps the chat scope as an object with optional `notebook`,
`section` and `page` fields. Each `select` element renders the current value
through `getStringValue` and maps a change back through `getOptionalValue`;
the notebook handler builds a fresh scope object containing only the
notebook field, while the section and page handlers spread the previous
scope. -/

/-- Chat scope held by `App.tsx` and edited by the sidebar: optional
notebook, section and page ids (the TypeScript field `section` is spelled
`sect` here because `section` is a Lean keyword). -/
structure Scope where
  notebook : Option String
  sect : Option String
  page : Option String
deriving DecidableEq

/-- Embedding of `getStringValue` from `Sidebar.tsx`: an absent value
renders as the empty string. -/
def getStringValue : Option String → String
  | none => ""
  | some v => v

/-- Embedding of `getOptionalValue` from `Sidebar.tsx`: the empty string
(the "All ..." option) maps back to an absent value. -/
def getOptionalValue (value : String) : Option String :=
  if value = "" then none else some value

/-- Embedding of the notebook select's onChange handler:
`onScopeChange({ notebook: getOptionalValue(e.target.value) })` builds a
fresh scope object, leaving section and page absent. -/
def onNotebookChange (_scope : Scope) (value : String) : Scope :=
  { notebook := getOptionalValue value, sect := none, page := none }

/-- Embedding of the section select's onChange handler, which spreads the
previous scope and replaces only the section. -/
def onSectionChange (scope : Scope) (value : String) : Scope :=
  { scope with sect := getOptionalValue value }

/-- Embedding of the page select's onChange handler, which spreads the
previous scope and replaces only the page. -/
def onPageChange (scope : Scope) (value : String) : Scope :=
  { scope with page := getOptionalValue value }

/-! ## `frontend/src/main.tsx`: SWR retry policy (`onErrorRetry`)

The SWR configuration retries failed fetches. The handler inspects the
error message for `"status: 4"` and `"429"`; the two membership tests are
passed in as booleans. It returns `none` when the fetch is abandoned and
`some t` when a revalidation is scheduled after `t` milliseconds. -/

/-- Embedding of `onErrorRetry` from `frontend/src/main.tsx`: no retry for
non-429 4xx errors; stop after 3 retries; 429s back off exponentially as
`min 30000 (1000 * 2 ^ retryCount)`; other errors retry after 5000 ms. -/
def onErrorRetry (msgHas4xx msgHas429 : Bool) (retryCount : Nat) : Option Nat :=
  if msgHas4xx && !msgHas429 then none
  else if 3 ≤ retryCount then none
  else some (if msgHas429 then min 30000 (1000 * 2 ^ retryCount) else 5000)

/-- Outcome of one attempt of a rate-limited external call. -/
inductive CallResult where
  | throttled : CallResult
  | ok : CallResult
  | otherError : CallResult
deriving DecidableEq

/-- Driving loop for the SWR retry policy: each element of `responses` is
the outcome of one fetch attempt; a throttled or failed attempt consults
`onErrorRetry` with the current retry count and revalidates only when a
timeout was scheduled. Returns `true` when some attempt succeeds. -/
def swrFetchLoop : List CallResult → Nat → Bool
  | [], _ => false
  | .ok :: _, _ => true
  | .throttled :: rest, retryCount =>
      match onErrorRetry true true retryCount with
      | some _ => swrFetchLoop rest (retryCount + 1)
      | none => false
  | .otherError :: rest, retryCount =>
      match onErrorRetry false false retryCount with
      | some _ => swrFetchLoop rest (retryCount + 1)
      | none => false

/-! ## Embedding Client retry (Modelled from the spec)

Modelled from the spec: the Embedding Client itself is not in the
repository snapshot (only the runbook and §4.3/§5 describe it). Per §4.3,
on a throttling response a call "retries with exponential backoff plus
jitter, bounded to a maximum attempt count; on exhaustion, the affected
chunk is marked failed (counted in the job's error tally) without aborting
the batch". -/

/-- Modelled from the spec: backoff delay before retry number `attempt`,
exponential in the attempt index with an additive jitter term drawn from
a bounded random source (passed in as a function of the attempt). -/
def backoffDelay (base : Nat) (jitter : Nat → Nat) (attempt : Nat) : Nat :=
  base * 2 ^ attempt + jitter attempt

/-- Modelled from the spec: process one item against a rate-limited
service. `responses` lists the outcome of each successive attempt;
at most `maxAttempts` attempts are made. Returns `true` when the item
eventually succeeds within the attempt budget. -/
def processItem (maxAttempts : Nat) (responses : List CallResult) : Bool :=
  match maxAttempts, responses with
  | 0, _ => false
  | _ + 1, [] => false
  | _ + 1, .ok :: _ => true
  | n + 1, .throttled :: rest => processItem n rest
  | n + 1, .otherError :: rest => processItem n rest

/-- Modelled from the spec: run a whole embedding batch, item by item.
Each item contributes exactly one error when its retries are exhausted and
none when it succeeds; a failed item never aborts the batch, so every
remaining item is still processed. Returns (succeeded, errors). -/
def processBatch (maxAttempts : Nat) : List (List CallResult) → Nat × Nat
  | [] => (0, 0)
  | item :: rest =>
      let (s, e) := processBatch maxAttempts rest
      if processItem maxAttempts item then (s + 1, e) else (s, e + 1)

/-! ## Chunk documents (Modelled from the spec, §3 and §6)

Modelled from the spec: the index document schema lives in the external
search engine and the backend writers/readers are not in the repository
snapshot. A chunk's `chunk_id` is "deterministic, derived from
page/attachment id + offset"; we embed that derivation as the pair of the
source id and the offset. `source_type` is the string used by the frontend
filter UI (`"page_text"` or `"attachment"`). -/

/-- Modelled from the spec: a chunk document as stored in the search index
(§3 Chunk, §6 search-engine schema; the tenant/user fields and the vector
payload do not affect any claim and are omitted). -/
structure Chunk where
  chunk_id : String × Nat
  content : String
  notebook_id : String
  section_id : String
  page_id : String
  source_type : String
  attachment_name : Option String
  attachment_filetype : Option String
  has_attachments : Bool
  chunk_offset : Nat
  modified_time : Nat
deriving DecidableEq

/-! ## Index Writer delete (Modelled from the spec, §4.4)

Modelled from the spec: `delete_by_notebook(notebook_id) -> count` "removes
all chunks matching notebook_id and returns the count removed". Embedded as
a document-by-document pass over the index. -/

/-- Modelled from the spec: delete every chunk whose `notebook_id` matches,
returning the remaining index and the number of documents removed. -/
def delete_by_notebook (nb : String) : List Chunk → List Chunk × Nat
  | [] => ([], 0)
  | c :: rest =>
      let r := delete_by_notebook nb rest
      if c.notebook_id = nb then (r.1, r.2 + 1) else (c :: r.1, r.2)

/-! ## Retrieval Orchestrator (Modelled from the spec, §4.5)

Modelled from the spec: the Retrieval Orchestrator is not in the repository
snapshot. Structured filters are "a conjunctive predicate over chunk
metadata ... filtering narrows the candidate set before or during scoring,
never after truncation to top", and results are ordered by combined score
descending with ties broken by ascending chunk_id. The combined scoring
function belongs to the external engine and is passed in as a parameter.
The filter shape is taken from the `SearchFilter` interface of
`frontend/src/components/AdvancedSearch.tsx`. -/

/-- Structured search filters, mirroring the `SearchFilter` interface in
`AdvancedSearch.tsx` (notebook ids, section ids, content types, date range,
attachment file types, has-attachments). -/
structure SearchFilter where
  notebook_ids : Option (List String)
  section_ids : Option (List String)
  content_types : Option (List String)
  date_range : Option (Nat × Nat)
  attachment_types : Option (List String)
  has_attachments : Option Bool
deriving DecidableEq

/-- Filter with no constraints (every field absent). -/
def SearchFilter.empty : SearchFilter :=
  ⟨none, none, none, none, none, none⟩

/-- One membership constraint: absent or empty lists constrain nothing
(mirroring the frontend's notion of an active filter), a non-empty list
requires membership. -/
def listConstraint (sel : Option (List String)) (value : String) : Bool :=
  match sel with
  | none => true
  | some [] => true
  | some l => l.contains value

/-- Modelled from the spec: the conjunctive filter predicate over chunk
metadata — notebook/section scope, content type, attachment file type,
date range and has-attachments must all hold. -/
def matchesFilter (f : SearchFilter) (c : Chunk) : Bool :=
  listConstraint f.notebook_ids c.notebook_id &&
  listConstraint f.section_ids c.section_id &&
  listConstraint f.content_types c.source_type &&
  (match f.attachment_types with
   | none => true
   | some [] => true
   | some l => match c.attachment_filetype with
     | none => false
     | some t => l.contains t) &&
  (match f.date_range with
   | none => true
   | some (lo, hi) => decide (lo ≤ c.modified_time ∧ c.modified_time ≤ hi)) &&
  (match f.has_attachments with
   | none => true
   | some b => c.has_attachments == b)

/-- Ascending order on chunk ids: lexicographic on the source id (string
order) and then the offset. -/
def idLe (a b : String × Nat) : Prop :=
  a.1 < b.1 ∨ (a.1 = b.1 ∧ a.2 ≤ b.2)

/-- Result ordering of §4.5: combined score descending, ties broken by
ascending chunk id. -/
def resultLe (score : Chunk → ℚ) (a b : Chunk) : Prop :=
  score b < score a ∨ (score a = score b ∧ idLe a.chunk_id b.chunk_id)

instance : DecidableRel idLe := fun a b => by
  unfold idLe; exact inferInstance

instance (score : Chunk → ℚ) : DecidableRel (resultLe score) := fun a b => by
  unfold resultLe; exact inferInstance

instance (score : Chunk → ℚ) : IsTotal Chunk (resultLe score) where
  total a b := by
    unfold resultLe idLe
    rcases lt_trichotomy (score a) (score b) with h | h | h
    · exact Or.inr (Or.inl h)
    · rcases lt_trichotomy a.chunk_id.1 b.chunk_id.1 with h1 | h1 | h1
      · exact Or.inl (Or.inr ⟨h, Or.inl h1⟩)
      · rcases le_total a.chunk_id.2 b.chunk_id.2 with h2 | h2
        · exact Or.inl (Or.inr ⟨h, Or.inr ⟨h1, h2⟩⟩)
        · exact Or.inr (Or.inr ⟨h.symm, Or.inr ⟨h1.symm, h2⟩⟩)
      · exact Or.inr (Or.inr ⟨h.symm, Or.inl h1⟩)
    · exact Or.inl (Or.inl h)

instance (score : Chunk → ℚ) : IsTrans Chunk (resultLe score) where
  trans a b c hab hbc := by
    unfold resultLe idLe at *
    rcases hab with hab | ⟨hab, hid1⟩
    · rcases hbc with hbc | ⟨hbc, _⟩
      · exact Or.inl (hbc.trans hab)
      · exact Or.inl (hbc ▸ hab)
    · rcases hbc with hbc | ⟨hbc, hid2⟩
      · exact Or.inl (hab ▸ hbc)
      · refine Or.inr ⟨hab.trans hbc, ?_⟩
        rcases hid1 with h1 | ⟨h1, h1'⟩
        · rcases hid2 with h2 | ⟨h2, _⟩
          · exact Or.inl (h1.trans h2)
          · exact Or.inl (h2 ▸ h1)
        · rcases hid2 with h2 | ⟨h2, h2'⟩
          · exact Or.inl (h1 ▸ h2)
          · exact Or.inr ⟨h1.trans h2, h1'.trans h2'⟩

/-- Modelled from the spec: execute a scoped query. The candidate set is
narrowed by the conjunctive filter predicate first, then ranked by the
combined score (descending, ties by ascending chunk id), and only then
truncated to `top`. The `score` parameter is the engine's combined
relevance for the fixed query. -/
def search (score : Chunk → ℚ) (f : SearchFilter) (top : Nat) (corpus : List Chunk) : List Chunk :=
  (((corpus.filter (matchesFilter f)).insertionSort (resultLe score)).take top)

/-! ## Chunker (Modelled from the spec, §4.2)

Modelled from the spec: the Chunker is not in the repository snapshot. Per
§4.2 it "splits on semantic paragraph boundaries ... into bounded-size
segments; each segment's chunk_offset is its character/byte start in the
source, used both for display and for deterministic id derivation".
Paragraph boundaries are blank lines; adjacent paragraphs are greedily
packed into a segment while the segment stays within `maxLen`, and a
segment's offset is the offset of its first paragraph. -/

/-- Pair each paragraph with its character offset in the source text; the
two characters of the paragraph separator are accounted between
paragraphs. -/
def paraOffsets (off : Nat) : List String → List (Nat × String)
  | [] => []
  | p :: ps => (off, p) :: paraOffsets (off + p.length + 2) ps

/-- Greedy packing loop: `o` and `acc` are the offset and text of the
segment under construction; a paragraph is merged while the merged length
stays within `maxLen`, otherwise the segment is emitted and a new one
starts at that paragraph's offset. -/
def packGo (maxLen : Nat) (o : Nat) (acc : String) : List (Nat × String) → List (Nat × String)
  | [] => [(o, acc)]
  | (o2, p) :: rest =>
      if acc.length + 2 + p.length ≤ maxLen then
        packGo maxLen o (acc ++ "\n\n" ++ p) rest
      else
        (o, acc) :: packGo maxLen o2 p rest

/-- Pack a list of offset-tagged paragraphs into bounded-size segments. -/
def packSegs (maxLen : Nat) : List (Nat × String) → List (Nat × String)
  | [] => []
  | (o, p) :: rest => packGo maxLen o p rest

/-- Modelled from the spec: the chunker — split the normalized text on
blank-line paragraph boundaries, tag each paragraph with its character
offset, and pack paragraphs into bounded-size segments. -/
def chunkSegments (maxLen : Nat) (text : String) : List (Nat × String) :=
  packSegs maxLen (paraOffsets 0 (text.splitOn "\n\n"))

/-- Modelled from the spec: build the index documents for one source
(page or attachment): the chunk id is derived from the source id and the
segment's offset. -/
def buildChunks (sourceId : String) (nb sec pg : String) (srcType : String)
    (maxLen : Nat) (text : String) : List Chunk :=
  (chunkSegments maxLen text).map fun seg =>
    { chunk_id := (sourceId, seg.1)
      content := seg.2
      notebook_id := nb
      section_id := sec
      page_id := pg
      source_type := srcType
      attachment_name := none
      attachment_filetype := none
      has_attachments := false
      chunk_offset := seg.1
      modified_time := 0 }

/-! ## Index Writer upsert (Modelled from the spec, §4.4)

Modelled from the spec: "Upsert is idempotent by chunk_id (same id
overwrites)". An upsert of one document overwrites the documents carrying
its id when present and appends otherwise. -/

/-- Modelled from the spec: upsert one document into the index, keyed on
`chunk_id`. -/
def upsert (idx : List Chunk) (c : Chunk) : List Chunk :=
  if idx.any (fun d => d.chunk_id == c.chunk_id) then
    idx.map (fun d => if d.chunk_id == c.chunk_id then c else d)
  else
    idx ++ [c]

/-- Modelled from the spec: upsert a batch of documents in order. -/
def upsertAll (idx : List Chunk) (cs : List Chunk) : List Chunk :=
  cs.foldl upsert idx

/-- A document is stored exactly in an index when some document carries
its chunk id and every document carrying that id is the document
itself — upserting such a document again is a no-op. -/
def storedExact (idx : List Chunk) (c : Chunk) : Prop :=
  (∀ d ∈ idx, d.chunk_id = c.chunk_id → d = c) ∧ ∃ d ∈ idx, d.chunk_id = c.chunk_id

/-! ## Ingestion Job Manager (Modelled from the spec, §3, §4.1, §5)

Modelled from the spec: the Ingestion Job Manager is not in the repository
snapshot (the frontend Admin panel at
`frontend/src/components/AdminPanel.tsx` is only its caller). Per §4.1,
`submit` "is rejected with JobConflict if a non-terminal job already exists
for that notebook — enforced by an exclusive registration keyed on
notebook_id, checked and set atomically"; `reindex` is treated as a submit
preceded by a delete-by-notebook; `delete` is subject to the same mutual
exclusion. Job status transitions (pending → running → completed/failed)
are driven by the background worker, modelled as explicit operations. -/

/-- Job lifecycle states of §3 (IngestionJob.status). -/
inductive JobStatus where
  | pending : JobStatus
  | running : JobStatus
  | completed : JobStatus
  | failed : JobStatus
deriving DecidableEq

/-- A job is terminal once completed or failed. -/
def JobStatus.terminal : JobStatus → Bool
  | .completed => true
  | .failed => true
  | _ => false

/-- An ingestion job registration: id, owning notebook and current
status. -/
structure Job where
  job_id : Nat
  notebook_id : String
  status : JobStatus
deriving DecidableEq

/-- Errors of the §7 taxonomy that the Job Manager surface returns. -/
inductive JobError where
  | jobConflict : JobError
  | notFound : JobError
deriving DecidableEq

/-- Job Manager state: the job registry, a fresh-id counter and the search
index the Index Writer mutates. -/
structure JMState where
  jobs : List Job
  nextId : Nat
  index : List Chunk

/-- State before any operation: no jobs, empty index. -/
def initState : JMState := { jobs := [], nextId := 0, index := [] }

/-- Modelled from the spec: the exclusive-registration check — is there a
non-terminal job registered for this notebook? -/
def activeFor (s : JMState) (nb : String) : Bool :=
  s.jobs.any (fun j => j.notebook_id == nb && !j.status.terminal)

/-- Operations against the Job Manager: the §4.1 contract operations that
mutate state, plus the worker transitions that advance a job. -/
inductive AdminOp where
  | submit (nb : String) : AdminOp
  | reindex (nb : String) : AdminOp
  | deleteNb (nb : String) : AdminOp
  | start (jid : Nat) : AdminOp
  | finish (jid : Nat) (success : Bool) : AdminOp

/-- Modelled from the spec: one Job Manager step. `submit` registers a new
pending job unless a non-terminal job for the notebook exists, in which
case it is rejected with JobConflict and the state is unchanged. `reindex`
is delete-then-resubmit under the same exclusivity check. `deleteNb`
removes the notebook's chunks, also under mutual exclusion. `start` moves
a pending job to running; `finish` moves a running job to a terminal
state. -/
def step (s : JMState) : AdminOp → JMState × Except JobError Unit
  | .submit nb =>
      if activeFor s nb then (s, .error .jobConflict)
      else ({ jobs := s.jobs ++ [{ job_id := s.nextId, notebook_id := nb, status := .pending }],
              nextId := s.nextId + 1, index := s.index }, .ok ())
  | .reindex nb =>
      if activeFor s nb then (s, .error .jobConflict)
      else ({ jobs := s.jobs ++ [{ job_id := s.nextId, notebook_id := nb, status := .pending }],
              nextId := s.nextId + 1,
              index := (delete_by_notebook nb s.index).1 }, .ok ())
  | .deleteNb nb =>
      if activeFor s nb then (s, .error .jobConflict)
      else ({ s with index := (delete_by_notebook nb s.index).1 }, .ok ())
  | .start jid =>
      ({ s with jobs := s.jobs.map fun j =>
          if j.job_id == jid && j.status == .pending then { j with status := .running } else j },
       .ok ())
  | .finish jid success =>
      ({ s with jobs := s.jobs.map fun j =>
          if j.job_id == jid && j.status == .running then
            { j with status := if success then .completed else .failed }
          else j },
       .ok ())

/-- Run a sequence of operations from the initial state, keeping the state
reached (rejected operations leave the state unchanged). -/
def runOps (ops : List AdminOp) : JMState :=
  ops.foldl (fun s op => (step s op).1) initState

/-- Mutual-exclusion invariant of §3/§5: at most one non-terminal job per
notebook. -/
def exclusive (s : JMState) : Prop :=
  ∀ nb : String, s.jobs.countP (fun j => j.notebook_id == nb && !j.status.terminal) ≤ 1

/-! ## Job execution and summary (Modelled from the spec, §4.1, §7)

Modelled from the spec: the job worker is not in the repository snapshot.
Execution "proceeds page-by-page and attachment-by-attachment; each item is
processed independently, and a failure on one item is recorded as an error
count increment, not an abort ... Only a fatal, non-recoverable condition
fails the whole job", and the "summary is always populated, even on
failure, reflecting work completed up to the failure point". The abstract
clock ticks once per item attempted, giving the duration. -/

/-- Kind of a work item inside an ingestion job. -/
inductive ItemKind where
  | pageItem : ItemKind
  | attachmentItem : ItemKind
deriving DecidableEq

/-- Outcome of processing one work item: success with a number of chunks
created, an item-level error, or a fatal non-recoverable condition. -/
inductive ItemOutcome where
  | success (chunks : Nat) : ItemOutcome
  | itemError : ItemOutcome
  | fatal : ItemOutcome
deriving DecidableEq

/-- The §3 job summary: pages/attachments processed, chunks created,
errors, duration. -/
structure JobSummary where
  pages_processed : Nat
  attachments_processed : Nat
  chunks_created : Nat
  errors : Nat
  duration_seconds : Nat
deriving DecidableEq

/-- Summary before any work has been done. -/
def emptySummary : JobSummary := ⟨0, 0, 0, 0, 0⟩

/-- Fold one processed (non-fatal) item into the running summary. -/
def addItem (s : JobSummary) : ItemKind × ItemOutcome → JobSummary
  | (.pageItem, .success n) =>
      { s with pages_processed := s.pages_processed + 1,
               chunks_created := s.chunks_created + n,
               duration_seconds := s.duration_seconds + 1 }
  | (.attachmentItem, .success n) =>
      { s with attachments_processed := s.attachments_processed + 1,
               chunks_created := s.chunks_created + n,
               duration_seconds := s.duration_seconds + 1 }
  | (_, .itemError) =>
      { s with errors := s.errors + 1, duration_seconds := s.duration_seconds + 1 }
  | (_, .fatal) => s

/-- Terminal result of running a job: final status and the summary. -/
structure JobResult where
  status : JobStatus
  summary : Option JobSummary
deriving DecidableEq

/-- Modelled from the spec: run the remaining items of a job, carrying the
summary accumulated so far. Item errors increment the error tally and the
job continues; a fatal condition fails the job with the summary of the
work completed up to that point; exhausting the items completes the
job. -/
def runJobFrom (s : JobSummary) : List (ItemKind × ItemOutcome) → JobResult
  | [] => { status := .completed, summary := some s }
  | (_, .fatal) :: _ => { status := .failed, summary := some s }
  | item :: rest => runJobFrom (addItem s item) rest

/-- Modelled from the spec: run a whole ingestion job over its work
items. -/
def runJob (items : List (ItemKind × ItemOutcome)) : JobResult :=
  runJobFrom emptySummary items

/-- Decide whether an item is fatal (used to phrase what the failure point
is). -/
def isFatal (item : ItemKind × ItemOutcome) : Bool :=
  item.2 == ItemOutcome.fatal

/-! ## Answer composition in the chat panel (`ChatPanel.tsx`, handleSend)

The advanced chat panel (src/unnamed/part_005) posts to `/chat`, throws on
a non-ok response, and renders the caught error as an assistant message
with no citations and no metadata; a successful response is rendered as an
assistant message carrying the answer, the citation list and a metadata
block. -/

/-- Search metadata attached to an assistant message by `handleSend`. -/
structure MessageMeta where
  search_mode : Option String
  filter_applied : Option Bool
  total_results : Option Nat

/-- Parsed body of a successful `/chat` response, as cast by
`handleSend`. -/
structure ChatPayload where
  answer : String
  citations : List Json
  search_mode : Option String
  filter_applied : Option Bool
  total_results : Option Nat

/-- A chat transcript message as built by `handleSend`. -/
structure ChatMessage where
  role : String
  content : String
  citations : Option (List Json)
  metadata : Option MessageMeta

/-- Embedding of the response handling in `handleSend` from
`ChatPanel.tsx`: a non-ok response throws
`HTTP error! status: ...`, which the catch block renders as an
assistant message with an `Error:` content and neither citations nor
metadata; an ok response is parsed (the `as`-cast is the `parse`
parameter) and rendered with citations and metadata attached. -/
def handleSendOutcome (resp : FetchLike) (parse : Json → ChatPayload) : ChatMessage :=
  if resp.ok then
    let p := parse resp.body
    { role := "assistant", content := p.answer, citations := some p.citations,
      metadata := some { search_mode := p.search_mode, filter_applied := p.filter_applied,
                         total_results := p.total_results } }
  else
    { role := "assistant",
      content := "Error: HTTP error! status: " ++ toString resp.status,
      citations := none, metadata := none }

/-! ## Concrete fixtures

Small concrete values used to exercise the executable definitions. -/

/-- A concrete attachment-sourced chunk. -/
def attachChunkW : Chunk :=
  { chunk_id := ("att1", 0)
    content := "budget table"
    notebook_id := "nb1"
    section_id := "s1"
    page_id := "p1"
    source_type := "attachment"
    attachment_name := some "budget.xlsx"
    attachment_filetype := some "xlsx"
    has_attachments := true
    chunk_offset := 0
    modified_time := 5 }

/-- A concrete page-text chunk on the same page. -/
def pageChunkW : Chunk :=
  { chunk_id := ("p1", 0)
    content := "meeting notes"
    notebook_id := "nb1"
    section_id := "s1"
    page_id := "p1"
    source_type := "page_text"
    attachment_name := none
    attachment_filetype := none
    has_attachments := true
    chunk_offset := 0
    modified_time := 5 }

/-- A filter scoped to attachments only. -/
def attachFilterW : SearchFilter :=
  { SearchFilter.empty with content_types := some ["attachment"] }

/-- A concrete chunk that belongs to a different notebook. -/
def otherChunkW : Chunk :=
  { chunk_id := ("p9", 0)
    content := "unrelated notes"
    notebook_id := "nb2"
    section_id := "s9"
    page_id := "p9"
    source_type := "page_text"
    attachment_name := none
    attachment_filetype := none
    has_attachments := false
    chunk_offset := 0
    modified_time := 9 }

/-! ## Theorems -/

/-- C9: the HTTP helpers `authFetch`, `postAuth` and `deleteAuth` never
throw — each is a total function of the axios outcome that returns `ok =
true` with the response status on success, and on any failure returns
`ok = false` with the status taken from the error response when present
and 0 otherwise, with `json()` yielding the error body or an empty
object. -/
theorem api_helpers_never_throw :
    ∀ (url token : String) (body : Json),
      fetchLikeSpec (authFetch url token) ∧
      fetchLikeSpec (postAuth url body token) ∧
      fetchLikeSpec (deleteAuth url token) := by
  intro url token body
  refine ⟨?_, ?_, ?_⟩ <;>
    · intro r
      rcases r with ⟨st, stx, d⟩ | ⟨msg, _ | ⟨st, stx, d⟩⟩
      · exact ⟨rfl, rfl⟩
      · exact ⟨rfl, rfl, rfl⟩
      · refine ⟨rfl, ?_, ?_⟩
        · show jsOrNum st 0 = st
          unfold jsOrNum
          by_cases h : st = 0 <;> simp [h]
        · show jsOr d (.obj []) = d ∨ jsOr d (.obj []) = Json.obj []
          unfold jsOr
          by_cases h : d.truthy <;> simp [h]

/-- C10: sidebar scope selection preserves hierarchical consistency —
changing the notebook builds a fresh scope whose section and page are
absent, and selecting the empty "All ..." option stores the absent value,
never the empty string. -/
theorem sidebar_scope_consistency :
    ∀ (scope : Scope) (v : String),
      (onNotebookChange scope v).sect = none ∧
      (onNotebookChange scope v).page = none ∧
      (onNotebookChange scope "").notebook = none ∧
      (onSectionChange scope "").sect = none ∧
      (onPageChange scope "").page = none ∧
      getOptionalValue "" = none ∧
      getOptionalValue v ≠ some "" := by
  intro scope v
  refine ⟨rfl, rfl, rfl, ?_, ?_, rfl, ?_⟩
  · simp [onSectionChange, getOptionalValue]
  · simp [onPageChange, getOptionalValue]
  · unfold getOptionalValue
    by_cases h : v = "" <;> simp [h]

/-- C8: in `handleSend`, a failed search/generation call is rendered as an
error message with no metadata and no citations, while any successful
response (zero results included) carries a metadata block — the two
outcomes are never represented the same way. -/
theorem chat_error_distinct_from_empty :
    ∀ (err okResp : FetchLike) (p₁ p₂ : Json → ChatPayload),
      err.ok = false → okResp.ok = true →
      (handleSendOutcome err p₁).metadata = none ∧
      (handleSendOutcome okResp p₂).metadata ≠ none ∧
      handleSendOutcome err p₁ ≠ handleSendOutcome okResp p₂ := by
  intro err okResp p₁ p₂ herr hok
  have h₁ : (handleSendOutcome err p₁).metadata = none := by
    simp [handleSendOutcome, herr]
  have h₂ : (handleSendOutcome okResp p₂).metadata ≠ none := by
    simp [handleSendOutcome, hok]
  refine ⟨h₁, h₂, fun hcontra => h₂ ?_⟩
  rw [← hcontra, h₁]

/-- C8 witness: a network failure routed through `postAuth` and a zero-
citation success are rendered as distinct messages. -/
theorem chat_error_distinct_from_empty_witness :
    (postAuth "/chat" (Json.obj []) "tok" (.failure "net down" none)).ok = false ∧
    (postAuth "/chat" (Json.obj []) "tok" (.success 200 "OK" (Json.obj []))).ok = true ∧
    handleSendOutcome (postAuth "/chat" (Json.obj []) "tok" (.failure "net down" none))
        (fun _ => ⟨"", [], none, none, some 0⟩) ≠
      handleSendOutcome (postAuth "/chat" (Json.obj []) "tok" (.success 200 "OK" (Json.obj [])))
        (fun _ => ⟨"", [], none, none, some 0⟩) :=
  ⟨rfl, rfl,
    (chat_error_distinct_from_empty
      (postAuth "/chat" (Json.obj []) "tok" (.failure "net down" none))
      (postAuth "/chat" (Json.obj []) "tok" (.success 200 "OK" (Json.obj [])))
      (fun _ => ⟨"", [], none, none, some 0⟩)
      (fun _ => ⟨"", [], none, none, some 0⟩) rfl rfl).2.2⟩

/-- C3: `delete(N)` removes exactly the chunks whose notebook id is `N`:
the remaining index is the subsequence of chunks with a different notebook
id (each left unchanged, in order), and the returned count is the number
of documents removed. -/
theorem delete_exactly_notebook :
    ∀ (nb : String) (idx : List Chunk),
      (delete_by_notebook nb idx).1 = idx.filter (fun c => !(c.notebook_id == nb)) ∧
      (delete_by_notebook nb idx).2 = idx.countP (fun c => c.notebook_id == nb) ∧
      (∀ c ∈ (delete_by_notebook nb idx).1, c.notebook_id ≠ nb) := by
  intro nb idx
  have h1 : (delete_by_notebook nb idx).1 = idx.filter (fun c => !(c.notebook_id == nb)) := by
    induction idx with
    | nil => rfl
    | cons c rest ih =>
      by_cases h : c.notebook_id = nb <;> simp [delete_by_notebook, h, ih]
  have h2 : (delete_by_notebook nb idx).2 = idx.countP (fun c => c.notebook_id == nb) := by
    clear h1
    induction idx with
    | nil => rfl
    | cons c rest ih =>
      by_cases h : c.notebook_id = nb <;>
        simp [delete_by_notebook, h, ih, List.countP_cons]
  refine ⟨h1, h2, ?_⟩
  intro d hd
  rw [h1] at hd
  simpa using List.of_mem_filter hd

/-- C2: throttled calls are retried with exponential backoff up to a fixed
attempt ceiling. In the SWR policy a 429 retries after
`min 30000 (1000·2^retryCount)` ms while `retryCount < 3` and stops at 3,
and non-429 4xx errors are never retried; in the spec-modelled embedding
client two throttles followed by a success make the item succeed (so it is
not counted as an error), and an item that exhausts its retries is counted
as exactly one error while the remaining batch items proceed
unchanged. -/
theorem throttling_retry_policy :
    ∀ (rc maxAttempts : Nat) (item : List CallResult) (rest : List (List CallResult)),
      (rc < 3 → onErrorRetry true true rc = some (min 30000 (1000 * 2 ^ rc))) ∧
      (3 ≤ rc → onErrorRetry true true rc = none) ∧
      onErrorRetry true false rc = none ∧
      swrFetchLoop [.throttled, .throttled, .ok] 0 = true ∧
      (3 ≤ maxAttempts → processItem maxAttempts [.throttled, .throttled, .ok] = true) ∧
      (processItem maxAttempts item = true →
        processBatch maxAttempts (item :: rest) =
          ((processBatch maxAttempts rest).1 + 1, (processBatch maxAttempts rest).2)) ∧
      (processItem maxAttempts item = false →
        processBatch maxAttempts (item :: rest) =
          ((processBatch maxAttempts rest).1, (processBatch maxAttempts rest).2 + 1)) ∧
      (∀ (base : Nat) (jitter : Nat → Nat) (a : Nat),
        (∀ k, jitter k < base * 2 ^ k) →
        backoffDelay base jitter a < backoffDelay base jitter (a + 1)) := by
  intro rc maxAttempts item rest
  refine ⟨?_, ?_, ?_, ?_, ?_, ?_, ?_, ?_⟩
  · intro h
    simp [onErrorRetry, Nat.not_le.mpr h]
  · intro h
    simp [onErrorRetry, h]
  · simp [onErrorRetry]
  · decide
  · intro h
    obtain ⟨k, rfl⟩ : ∃ k, maxAttempts = k + 3 := ⟨maxAttempts - 3, by omega⟩
    simp [processItem]
  · intro h
    simp [processBatch, h]
  · intro h
    simp [processBatch, h]
  · intro base jitter a hj
    have h1 := hj a
    unfold backoffDelay
    calc base * 2 ^ a + jitter a < base * 2 ^ a + base * 2 ^ a := by omega
      _ = base * 2 ^ (a + 1) := by ring
      _ ≤ base * 2 ^ (a + 1) + jitter (a + 1) := Nat.le_add_right _ _

/-- C2 witness: the first 429 retry waits 2 seconds at retry count 1, the
ceiling stops retrying at 3, a twice-throttled item still succeeds within
3 attempts, and an exhausted item contributes exactly one error while the
following item is still processed. -/
theorem throttling_retry_policy_witness :
    (1 < 3 ∧ onErrorRetry true true 1 = some (min 30000 (1000 * 2 ^ 1))) ∧
    (3 ≤ 3 ∧ onErrorRetry true true 3 = none) ∧
    (3 ≤ 3 ∧ processItem 3 [.throttled, .throttled, .ok] = true) ∧
    (processItem 3 [.throttled, .throttled, .throttled] = false ∧
      processBatch 3 [[.throttled, .throttled, .throttled], [.ok]] =
        ((processBatch 3 [[.ok]]).1, (processBatch 3 [[.ok]]).2 + 1)) ∧
    backoffDelay 1000 (fun _ => 0) 0 < backoffDelay 1000 (fun _ => 0) 1 :=
  ⟨⟨by decide, (throttling_retry_policy 1 3 [] []).1 (by decide)⟩,
   ⟨by decide, (throttling_retry_policy 3 3 [] []).2.1 (by decide)⟩,
   ⟨by decide, (throttling_retry_policy 1 3 [] []).2.2.2.2.1 (by decide)⟩,
   ⟨by decide,
    (throttling_retry_policy 1 3 [.throttled, .throttled, .throttled]
      [[.ok]]).2.2.2.2.2.2.1 (by decide)⟩,
   (throttling_retry_policy 1 3 [] []).2.2.2.2.2.2.2 1000 (fun _ => 0) 0
     (fun k => by positivity)⟩

/-- Helper for C7: running a job from an accumulated summary always ends
in a terminal state with the summary folded over the non-fatal prefix of
the remaining items, and fails exactly when a fatal item remains. -/
theorem runJobFrom_spec (items : List (ItemKind × ItemOutcome)) :
    ∀ s : JobSummary,
      ((runJobFrom s items).status = .completed ∨ (runJobFrom s items).status = .failed) ∧
      (runJobFrom s items).summary =
        some ((items.takeWhile (fun i => !(isFatal i))).foldl addItem s) ∧
      ((runJobFrom s items).status = .failed ↔ items.any isFatal = true) := by
  induction items with
  | nil =>
    intro s
    exact ⟨Or.inl rfl, rfl, by simp [runJobFrom]⟩
  | cons item rest ih =>
    intro s
    obtain ⟨k, o⟩ := item
    cases o with
    | fatal =>
      refine ⟨Or.inr rfl, ?_, ?_⟩
      · simp [runJobFrom, isFatal, List.takeWhile]
      · simp [runJobFrom, isFatal]
    | success n =>
      obtain ⟨iht, ihs, ihf⟩ := ih (addItem s (k, .success n))
      refine ⟨?_, ?_, ?_⟩
      · simpa [runJobFrom] using iht
      · simpa [runJobFrom, isFatal, List.takeWhile] using ihs
      · simpa [runJobFrom, isFatal] using ihf
    | itemError =>
      obtain ⟨iht, ihs, ihf⟩ := ih (addItem s (k, .itemError))
      refine ⟨?_, ?_, ?_⟩
      · simpa [runJobFrom] using iht
      · simpa [runJobFrom, isFatal, List.takeWhile] using ihs
      · simpa [runJobFrom, isFatal] using ihf

/-- C7: every ingestion job reaches a terminal state with its summary
populated — equal to the fold of the work items completed before the
failure point — including when the terminal status is `failed`, which
happens exactly when a fatal item was hit. -/
theorem job_summary_always_populated :
    ∀ items : List (ItemKind × ItemOutcome),
      ((runJob items).status = .completed ∨ (runJob items).status = .failed) ∧
      (runJob items).summary =
        some ((items.takeWhile (fun i => !(isFatal i))).foldl addItem emptySummary) ∧
      ((runJob items).status = .failed ↔ items.any isFatal = true) := by
  intro items
  exact runJobFrom_spec items emptySummary

/-- C4: for a fixed corpus, fixed filters and a fixed scoring of the query,
a hybrid search result is sorted by combined score descending with ties
broken by ascending chunk id, and two identical calls return element-wise
equal lists. -/
theorem hybrid_ordering_deterministic :
    ∀ (score : Chunk → ℚ) (f : SearchFilter) (top : Nat) (corpus : List Chunk),
      search score f top corpus = search score f top corpus ∧
      (search score f top corpus).Pairwise (fun a b =>
        score b < score a ∨ (score a = score b ∧ idLe a.chunk_id b.chunk_id)) := by
  intro score f top corpus
  refine ⟨rfl, ?_⟩
  have hs : ((corpus.filter (matchesFilter f)).insertionSort (resultLe score)).Pairwise
      (resultLe score) :=
    List.sorted_insertionSort (resultLe score) (corpus.filter (matchesFilter f))
  have ht := hs.sublist (List.take_sublist top _)
  simpa [search, resultLe] using ht

/-- C6: structured filters are a conjunctive predicate applied before
truncation — every chunk a search returns satisfies the whole filter — so
a query scoped with `content_types = ["attachment"]` never returns a
page-text chunk, whatever its score. -/
theorem filters_conjunctive_before_top :
    ∀ (score : Chunk → ℚ) (f : SearchFilter) (top : Nat) (corpus : List Chunk) (c : Chunk),
      c ∈ search score f top corpus →
      matchesFilter f c = true ∧
      (f.content_types = some ["attachment"] → c.source_type ≠ "page_text") := by
  intro score f top corpus c hc
  have hmem : c ∈ (corpus.filter (matchesFilter f)).insertionSort (resultLe score) :=
    List.take_subset top _ hc
  have hfil : c ∈ corpus.filter (matchesFilter f) :=
    (List.mem_insertionSort (resultLe score)).mp hmem
  have hmatch : matchesFilter f c = true := List.of_mem_filter hfil
  refine ⟨hmatch, ?_⟩
  intro hct hpage
  unfold matchesFilter at hmatch
  rw [hct] at hmatch
  simp only [Bool.and_eq_true] at hmatch
  have hlc := hmatch.1.1.1.2
  rw [hpage] at hlc
  simp [listConstraint] at hlc

/-- C6 witness: on a two-chunk corpus holding one attachment chunk and one
page-text chunk, the attachment-scoped query returns the attachment chunk,
and the theorem applies to it. -/
theorem filters_conjunctive_before_top_witness :
    attachChunkW ∈ search (fun _ => 0) attachFilterW 10 [pageChunkW, attachChunkW] ∧
    matchesFilter attachFilterW attachChunkW = true ∧
    attachChunkW.source_type ≠ "page_text" := by
  refine ⟨by decide, ?_, ?_⟩
  · exact (filters_conjunctive_before_top (fun _ => 0) attachFilterW 10
      [pageChunkW, attachChunkW] attachChunkW (by decide)).1
  · exact (filters_conjunctive_before_top (fun _ => 0) attachFilterW 10
      [pageChunkW, attachChunkW] attachChunkW (by decide)).2 rfl

/-- Every offset produced by `paraOffsets` is at least the starting
offset. -/
theorem paraOffsets_lb (ps : List String) :
    ∀ off : Nat, ∀ x ∈ paraOffsets off ps, off ≤ x.1 := by
  induction ps with
  | nil => intro off x hx; cases hx
  | cons p rest ih =>
    intro off x hx
    simp only [paraOffsets, List.mem_cons] at hx
    rcases hx with rfl | hx
    · exact le_refl off
    · have := ih (off + p.length + 2) x hx
      omega

/-- Paragraph offsets are strictly increasing. -/
theorem paraOffsets_pairwise (ps : List String) :
    ∀ off : Nat, (paraOffsets off ps).Pairwise (fun a b => a.1 < b.1) := by
  induction ps with
  | nil => intro off; exact List.Pairwise.nil
  | cons p rest ih =>
    intro off
    refine List.Pairwise.cons ?_ (ih _)
    intro x hx
    have := paraOffsets_lb rest (off + p.length + 2) x hx
    omega

/-- The greedy packing loop keeps offsets strictly increasing, and every
emitted offset is at least the offset of the open segment. -/
theorem packGo_pairwise (maxLen : Nat) (rest : List (Nat × String)) :
    ∀ (o : Nat) (acc : String),
      (∀ x ∈ rest, o < x.1) → rest.Pairwise (fun a b => a.1 < b.1) →
      ((packGo maxLen o acc rest).Pairwise (fun a b => a.1 < b.1) ∧
        ∀ y ∈ packGo maxLen o acc rest, o ≤ y.1) := by
  induction rest with
  | nil =>
    intro o acc _ _
    refine ⟨List.pairwise_singleton _ _, ?_⟩
    intro y hy
    simp only [packGo, List.mem_singleton] at hy
    rw [hy]
  | cons hd tl ih =>
    intro o acc hall hpw
    obtain ⟨o2, p⟩ := hd
    have hpair := List.pairwise_cons.mp hpw
    by_cases hfit : acc.length + 2 + p.length ≤ maxLen
    · have h1 : ∀ x ∈ tl, o < x.1 := fun x hx => hall x (List.mem_cons_of_mem _ hx)
      have := ih o (acc ++ "\n\n" ++ p) h1 hpair.2
      simpa [packGo, hfit] using this
    · have ho : o < o2 := hall (o2, p) (List.mem_cons_self _ _)
      have ihres := ih o2 p hpair.1 hpair.2
      have hstep : packGo maxLen o acc ((o2, p) :: tl) = (o, acc) :: packGo maxLen o2 p tl := by
        simp [packGo, hfit]
      refine ⟨?_, ?_⟩
      · rw [hstep]
        refine List.Pairwise.cons ?_ ihres.1
        intro y hy
        exact lt_of_lt_of_le ho (ihres.2 y hy)
      · intro y hy
        rw [hstep] at hy
        rcases List.mem_cons.mp hy with rfl | hy
        · exact le_refl o
        · exact le_of_lt (lt_of_lt_of_le ho (ihres.2 y hy))

/-- Chunk segment offsets are strictly increasing. -/
theorem chunkSegments_pairwise (maxLen : Nat) (text : String) :
    (chunkSegments maxLen text).Pairwise (fun a b => a.1 < b.1) := by
  unfold chunkSegments
  rcases hpo : paraOffsets 0 (text.splitOn "\n\n") with _ | ⟨⟨o, p⟩, rest⟩
  · exact List.Pairwise.nil
  · have hpw := paraOffsets_pairwise (text.splitOn "\n\n") 0
    rw [hpo] at hpw
    have hpair := List.pairwise_cons.mp hpw
    exact (packGo_pairwise maxLen rest o p hpair.1 hpair.2).1

/-- The chunk ids built for one source are pairwise distinct. -/
theorem buildChunks_ids_nodup (sourceId nb sec pg srcType : String) (maxLen : Nat)
    (text : String) :
    ((buildChunks sourceId nb sec pg srcType maxLen text).map Chunk.chunk_id).Nodup := by
  show ((buildChunks sourceId nb sec pg srcType maxLen text).map Chunk.chunk_id).Pairwise (· ≠ ·)
  unfold buildChunks
  rw [List.map_map, List.pairwise_map]
  refine (chunkSegments_pairwise maxLen text).imp ?_
  intro a b hab hcontra
  have h2 : a.1 = b.1 := congrArg Prod.snd hcontra
  omega

/-- Upserting a document that is already stored exactly leaves the index
unchanged. -/
theorem upsert_of_storedExact (idx : List Chunk) (c : Chunk) (h : storedExact idx c) :
    upsert idx c = idx := by
  obtain ⟨hall, d, hd, hid⟩ := h
  have hany : idx.any (fun d => d.chunk_id == c.chunk_id) = true :=
    List.any_eq_true.mpr ⟨d, hd, by simpa using hid⟩
  unfold upsert
  rw [if_pos hany]
  have hcongr : ∀ d ∈ idx, (if d.chunk_id == c.chunk_id then c else d) = id d := by
    intro e he
    by_cases h : e.chunk_id = c.chunk_id
    · simp [h, (hall e he h).symm]
    · simp [h]
  rw [List.map_congr_left hcongr, List.map_id]

/-- After upserting a document, it is stored exactly. -/
theorem storedExact_upsert_self (idx : List Chunk) (c : Chunk) :
    storedExact (upsert idx c) c := by
  unfold upsert
  by_cases hany : idx.any (fun d => d.chunk_id == c.chunk_id) = true
  · rw [if_pos hany]
    constructor
    · intro d hd hid
      obtain ⟨e, he, rfl⟩ := List.mem_map.mp hd
      by_cases h : e.chunk_id = c.chunk_id
      · simp [h]
      · rw [if_neg (by simpa using h)] at hid
        exact absurd hid h
    · obtain ⟨e, he, heq⟩ := List.any_eq_true.mp hany
      refine ⟨c, List.mem_map.mpr ⟨e, he, ?_⟩, rfl⟩
      simp [beq_iff_eq.mp heq]
  · rw [if_neg hany]
    have hnone : ∀ d ∈ idx, d.chunk_id ≠ c.chunk_id := by
      intro d hd hcontra
      exact hany (List.any_eq_true.mpr ⟨d, hd, by simpa using hcontra⟩)
    constructor
    · intro d hd hid
      rcases List.mem_append.mp hd with h | h
      · exact absurd hid (hnone d h)
      · simpa using h
    · exact ⟨c, by simp, rfl⟩

/-- Upserting a document with a different chunk id preserves exact
storage. -/
theorem storedExact_upsert_other (idx : List Chunk) (c b : Chunk)
    (h : storedExact idx c) (hne : b.chunk_id ≠ c.chunk_id) :
    storedExact (upsert idx b) c := by
  obtain ⟨hall, d, hd, hid⟩ := h
  unfold upsert
  by_cases hany : idx.any (fun e => e.chunk_id == b.chunk_id) = true
  · rw [if_pos hany]
    constructor
    · intro e he hide
      obtain ⟨e0, he0, rfl⟩ := List.mem_map.mp he
      by_cases h0 : e0.chunk_id = b.chunk_id
      · simp only [h0, beq_self_eq_true, if_true, if_pos] at hide ⊢
        exact absurd hide hne
      · simp only [h0, beq_iff_eq, if_neg] at hide ⊢
        exact hall e0 he0 hide
    · refine ⟨d, List.mem_map.mpr ⟨d, hd, ?_⟩, hid⟩
      have : d.chunk_id ≠ b.chunk_id := fun hc => hne (hc ▸ hid.symm ▸ rfl)
      simp only [beq_iff_eq]
      rw [if_neg this]
  · rw [if_neg hany]
    constructor
    · intro e he hide
      rcases List.mem_append.mp he with h | h
      · exact hall e h hide
      · have : e = b := by simpa using h
        exact absurd (this ▸ hide) hne
    · exact ⟨d, List.mem_append_left _ hd, hid⟩

/-- Upserting a batch of documents none of which carries a given chunk id
preserves exact storage of that document. -/
theorem storedExact_upsertAll_other (cs : List Chunk) :
    ∀ (idx : List Chunk) (c : Chunk), storedExact idx c →
      (∀ b ∈ cs, b.chunk_id ≠ c.chunk_id) → storedExact (upsertAll idx cs) c := by
  induction cs with
  | nil => intro idx c h _; exact h
  | cons b rest ih =>
    intro idx c h hne
    show storedExact (upsertAll (upsert idx b) rest) c
    exact ih (upsert idx b) c
      (storedExact_upsert_other idx c b h (hne b (List.mem_cons_self _ _)))
      (fun e he => hne e (List.mem_cons_of_mem _ he))

/-- After a batch upsert of documents with pairwise distinct chunk ids,
every document of the batch is stored exactly. -/
theorem storedExact_after_upsertAll (cs : List Chunk) :
    ∀ idx : List Chunk, (cs.map Chunk.chunk_id).Nodup →
      ∀ c ∈ cs, storedExact (upsertAll idx cs) c := by
  induction cs with
  | nil => intro idx _ c hc; cases hc
  | cons b rest ih =>
    intro idx hnd c hc
    have hstep : upsertAll idx (b :: rest) = upsertAll (upsert idx b) rest := rfl
    rw [hstep]
    rcases List.mem_cons.mp hc with rfl | hc
    · have hnotin : ∀ e ∈ rest, e.chunk_id ≠ c.chunk_id := by
        intro e he hcontra
        have hmem : c.chunk_id ∈ rest.map Chunk.chunk_id :=
          List.mem_map.mpr ⟨e, he, hcontra⟩
        exact (List.nodup_cons.mp (by simpa using hnd)).1 hmem
      exact storedExact_upsertAll_other rest (upsert idx c) c
        (storedExact_upsert_self idx c) hnotin
    · exact ih (upsert idx b) (List.nodup_cons.mp (by simpa using hnd)).2 c hc

/-- A batch whose documents are all stored exactly upserts to the same
index. -/
theorem upsertAll_of_storedExact (cs : List Chunk) :
    ∀ idx : List Chunk, (∀ c ∈ cs, storedExact idx c) → upsertAll idx cs = idx := by
  induction cs with
  | nil => intro idx _; rfl
  | cons c rest ih =>
    intro idx h
    show upsertAll (upsert idx c) rest = idx
    rw [upsert_of_storedExact idx c (h c (List.mem_cons_self _ _))]
    exact ih idx (fun e he => h e (List.mem_cons_of_mem _ he))

/-- C5: the chunker is deterministic — identical content yields identical
offset and chunk-id sequences — the chunk ids of one source are pairwise
distinct, and re-ingesting the same content through the id-keyed upsert
leaves the index exactly as after the first ingestion (no duplicate
entries). -/
theorem chunker_deterministic_idempotent :
    ∀ (maxLen : Nat) (sourceId nb sec pg srcType text : String) (idx : List Chunk),
      chunkSegments maxLen text = chunkSegments maxLen text ∧
      (buildChunks sourceId nb sec pg srcType maxLen text).map Chunk.chunk_id =
        (buildChunks sourceId nb sec pg srcType maxLen text).map Chunk.chunk_id ∧
      ((buildChunks sourceId nb sec pg srcType maxLen text).map Chunk.chunk_id).Nodup ∧
      upsertAll (upsertAll idx (buildChunks sourceId nb sec pg srcType maxLen text))
          (buildChunks sourceId nb sec pg srcType maxLen text) =
        upsertAll idx (buildChunks sourceId nb sec pg srcType maxLen text) := by
  intro maxLen sourceId nb sec pg srcType text idx
  have hnd := buildChunks_ids_nodup sourceId nb sec pg srcType maxLen text
  refine ⟨rfl, rfl, hnd, ?_⟩
  exact upsertAll_of_storedExact _ _
    (fun c hc => storedExact_after_upsertAll _ idx hnd c hc)

/-- When no job is active for a notebook, the non-terminal count for that
notebook is zero. -/
theorem countP_active_eq_zero (s : JMState) (nb : String) (h : activeFor s nb = false) :
    s.jobs.countP (fun j => j.notebook_id == nb && !j.status.terminal) = 0 := by
  refine List.countP_eq_zero.mpr ?_
  intro j hj hp
  have hact : activeFor s nb = true := List.any_eq_true.mpr ⟨j, hj, hp⟩
  rw [h] at hact
  exact Bool.false_ne_true hact

/-- Every Job Manager step preserves the mutual-exclusion invariant. -/
theorem exclusive_step (s : JMState) (op : AdminOp) (h : exclusive s) :
    exclusive (step s op).1 := by
  cases op with
  | submit nb0 =>
    by_cases hact : activeFor s nb0 = true
    · intro nb
      simpa [step, hact] using h nb
    · intro nb
      have hz := countP_active_eq_zero s nb0 (Bool.eq_false_iff.mpr hact)
      simp only [step, if_neg hact]
      rw [List.countP_append]
      by_cases hnb : nb0 = nb
      · subst hnb
        rw [hz]
        simp [JobStatus.terminal, List.countP_cons]
      · have : (List.countP (fun j => j.notebook_id == nb && !j.status.terminal)
            ([⟨s.nextId, nb0, JobStatus.pending⟩] : List Job)) = 0 := by
          simp [List.countP_cons, hnb]
        rw [this]
        simpa using h nb
  | reindex nb0 =>
    by_cases hact : activeFor s nb0 = true
    · intro nb
      simpa [step, hact] using h nb
    · intro nb
      have hz := countP_active_eq_zero s nb0 (Bool.eq_false_iff.mpr hact)
      simp only [step, if_neg hact]
      rw [List.countP_append]
      by_cases hnb : nb0 = nb
      · subst hnb
        rw [hz]
        simp [JobStatus.terminal, List.countP_cons]
      · have : (List.countP (fun j => j.notebook_id == nb && !j.status.terminal)
            ([⟨s.nextId, nb0, JobStatus.pending⟩] : List Job)) = 0 := by
          simp [List.countP_cons, hnb]
        rw [this]
        simpa using h nb
  | deleteNb nb0 =>
    by_cases hact : activeFor s nb0 = true <;>
      · intro nb
        simpa [step, hact] using h nb
  | start jid =>
    intro nb
    simp only [step]
    rw [List.countP_map]
    refine le_trans (List.countP_mono_left ?_) (h nb)
    intro j hj hp
    by_cases hc : (j.job_id == jid && j.status == JobStatus.pending) = true
    · have hpend : j.status = JobStatus.pending := by
        have hc2 := hc
        simp only [Bool.and_eq_true, beq_iff_eq] at hc2
        exact hc2.2
      simp only [Function.comp, hc, if_pos] at hp
      simpa [hpend, JobStatus.terminal] using hp
    · simp only [Function.comp, if_neg hc] at hp
      exact hp
  | finish jid success =>
    intro nb
    simp only [step]
    rw [List.countP_map]
    refine le_trans (List.countP_mono_left ?_) (h nb)
    intro j hj hp
    by_cases hc : (j.job_id == jid && j.status == JobStatus.running) = true
    · simp only [Function.comp, hc, if_pos] at hp
      rcases hsucc : success with _ | _ <;>
        simp [hsucc, JobStatus.terminal] at hp
    · simp only [Function.comp, if_neg hc] at hp
      exact hp

/-- The mutual-exclusion invariant holds in every state reachable by a
sequence of operations. -/
theorem exclusive_runOps (ops : List AdminOp) : exclusive (runOps ops) := by
  have haux : ∀ (l : List AdminOp) (s : JMState), exclusive s →
      exclusive (l.foldl (fun s op => (step s op).1) s) := by
    intro l
    induction l with
    | nil => intro s hs; exact hs
    | cons op rest ih =>
      intro s hs
      exact ih _ (exclusive_step s op hs)
  refine haux ops initState ?_
  intro nb
  simp [initState]

/-- C1: in every state reachable by a sequence of submit/reindex/delete
(and worker) operations, at most one non-terminal job exists per notebook,
and submitting ingestion for a notebook with a non-terminal job is
rejected with JobConflict, leaving the state — in particular the job
list — unchanged. -/
theorem submit_mutual_exclusion :
    ∀ (ops : List AdminOp) (nb : String),
      exclusive (runOps ops) ∧
      (activeFor (runOps ops) nb = true →
        step (runOps ops) (.submit nb) = (runOps ops, .error .jobConflict)) := by
  intro ops nb
  refine ⟨exclusive_runOps ops, ?_⟩
  intro h
  simp [step, h]

/-- C1 witness: after one accepted submission for notebook `nbA`, a second
submission for `nbA` is rejected with JobConflict and the state is
unchanged. -/
theorem submit_mutual_exclusion_witness :
    activeFor (runOps [AdminOp.submit "nbA"]) "nbA" = true ∧
    step (runOps [AdminOp.submit "nbA"]) (.submit "nbA") =
      (runOps [AdminOp.submit "nbA"], .error .jobConflict) :=
  ⟨by decide, (submit_mutual_exclusion [AdminOp.submit "nbA"] "nbA").2 (by decide)⟩

/-- C9 witness: a failure with an attached 404 response maps to a non-ok
fetch-like object carrying status 404 and the error body. -/
theorem api_helpers_never_throw_witness :
    (authFetch "/notebooks" "tok" (.failure "boom" (some (404, "Not Found", Json.null)))).ok
        = false ∧
    (authFetch "/notebooks" "tok" (.failure "boom" (some (404, "Not Found", Json.null)))).status
        = 404 ∧
    ((authFetch "/notebooks" "tok" (.failure "boom" (some (404, "Not Found", Json.null)))).body
        = Json.null ∨
      (authFetch "/notebooks" "tok"
          (.failure "boom" (some (404, "Not Found", Json.null)))).body = Json.obj []) :=
  (api_helpers_never_throw "/notebooks" "tok" Json.null).1
    (.failure "boom" (some (404, "Not Found", Json.null)))

/-- C10 witness: selecting notebook `x` from a fully populated scope
clears section and page, and the empty option never yields the empty
string. -/
theorem sidebar_scope_consistency_witness :
    (onNotebookChange ⟨some "a", some "b", some "c"⟩ "x").sect = none ∧
    (onNotebookChange ⟨some "a", some "b", some "c"⟩ "x").page = none ∧
    getOptionalValue "x" ≠ some "" :=
  ⟨(sidebar_scope_consistency ⟨some "a", some "b", some "c"⟩ "x").1,
   (sidebar_scope_consistency ⟨some "a", some "b", some "c"⟩ "x").2.1,
   (sidebar_scope_consistency ⟨some "a", some "b", some "c"⟩ "x").2.2.2.2.2.2⟩

/-- C3 witness: deleting notebook `nb1` from a two-notebook index keeps
the chunk of the other notebook and reports one removed document. -/
theorem delete_exactly_notebook_witness :
    (delete_by_notebook "nb1" [attachChunkW, otherChunkW]).1 =
      List.filter (fun c => !(c.notebook_id == "nb1")) [attachChunkW, otherChunkW] ∧
    (delete_by_notebook "nb1" [attachChunkW, otherChunkW]).2 =
      List.countP (fun c => c.notebook_id == "nb1") [attachChunkW, otherChunkW] ∧
    otherChunkW.notebook_id ≠ "nb1" :=
  ⟨(delete_exactly_notebook "nb1" [attachChunkW, otherChunkW]).1,
   (delete_exactly_notebook "nb1" [attachChunkW, otherChunkW]).2.1,
   (delete_exactly_notebook "nb1" [attachChunkW, otherChunkW]).2.2 otherChunkW (by decide)⟩

/-- C4 witness: a concrete two-chunk query is returned sorted by the
result order. -/
theorem hybrid_ordering_deterministic_witness :
    (search (fun c => (c.modified_time : ℚ)) SearchFilter.empty 10
        [pageChunkW, otherChunkW, attachChunkW]).Pairwise (fun a b =>
      (fun c => (c.modified_time : ℚ)) b < (fun c => (c.modified_time : ℚ)) a ∨
        ((fun c => (c.modified_time : ℚ)) a = (fun c => (c.modified_time : ℚ)) b ∧
          idLe a.chunk_id b.chunk_id)) :=
  (hybrid_ordering_deterministic (fun c => (c.modified_time : ℚ)) SearchFilter.empty 10
    [pageChunkW, otherChunkW, attachChunkW]).2

/-- C5 witness: chunking a concrete two-paragraph page yields
duplicate-free ids and a second ingestion of the same content is a no-op
on the index. -/
theorem chunker_deterministic_idempotent_witness :
    ((buildChunks "p1" "nb1" "s1" "p1" "page_text" 10 "alpha\n\nbeta gamma delta").map
        Chunk.chunk_id).Nodup ∧
    upsertAll
        (upsertAll [otherChunkW]
          (buildChunks "p1" "nb1" "s1" "p1" "page_text" 10 "alpha\n\nbeta gamma delta"))
        (buildChunks "p1" "nb1" "s1" "p1" "page_text" 10 "alpha\n\nbeta gamma delta") =
      upsertAll [otherChunkW]
        (buildChunks "p1" "nb1" "s1" "p1" "page_text" 10 "alpha\n\nbeta gamma delta") :=
  ⟨(chunker_deterministic_idempotent 10 "p1" "nb1" "s1" "p1" "page_text"
      "alpha\n\nbeta gamma delta" [otherChunkW]).2.2.1,
   (chunker_deterministic_idempotent 10 "p1" "nb1" "s1" "p1" "page_text"
      "alpha\n\nbeta gamma delta" [otherChunkW]).2.2.2⟩

/-- C7 witness: a job that processes a page, hits an item error on an
attachment and then a fatal condition ends failed with the summary of the
completed prefix. -/
theorem job_summary_always_populated_witness :
    (runJob [(.pageItem, .success 2), (.attachmentItem, .itemError),
        (.pageItem, .fatal)]).status = .failed ∧
    (runJob [(.pageItem, .success 2), (.attachmentItem, .itemError),
        (.pageItem, .fatal)]).summary =
      some ((([(.pageItem, .success 2), (.attachmentItem, .itemError),
          (.pageItem, .fatal)] : List (ItemKind × ItemOutcome)).takeWhile
            (fun i => !(isFatal i))).foldl addItem emptySummary) :=
  ⟨(job_summary_always_populated [(.pageItem, .success 2), (.attachmentItem, .itemError),
      (.pageItem, .fatal)]).2.2.mpr (by decide),
   (job_summary_always_populated [(.pageItem, .success 2), (.attachmentItem, .itemError),
      (.pageItem, .fatal)]).2.1⟩

end OneNote
